import Mathlib

/-!
Verification of the Fidelity browser-automation module (`fidelityAPI.py`).

The Python code is shallowly embedded: Python floats become `ℚ`, Python
dict values that may be absent or ill-typed become `PyVal` wrapped in
`Option` (where `Option.none` models an absent key and `PyVal.pynone`
models the Python value `None`), the account ledger (`self.account_dict`,
an insertion-ordered dict) becomes an association list, and Python
exceptions become the `PyExc` type threaded through `Except`.
-/

set_option autoImplicit false

namespace FidelityAPI

/-! ## Data model -/

/-- A Python runtime value, as far as the stock dictionaries are concerned:
a string, a float (modelled as `ℚ`), an int, or `None`. -/
inductive PyVal where
  | str (s : String)
  | float (q : ℚ)
  | int (n : ℤ)
  | pynone
  deriving DecidableEq, Repr

/-- A Python exception, carrying its message text. `timeout` stands for
`PlaywrightTimeoutError`; the others are builtin Python exceptions raised
by the embedded code. -/
inductive PyExc where
  | timeout (msg : String)
  | valueError (msg : String)
  | typeError (msg : String)
  | keyError (msg : String)
  | indexError
  | other (msg : String)
  deriving DecidableEq, Repr

/-- A stock dictionary as built by `create_stock_dict` or handed to the
ledger operations.  Each field is `Option PyVal`: `none` means the key is
absent from the dict (so access raises `KeyError`), `some .pynone` means
the key maps to Python `None`. -/
structure StockDict where
  ticker : Option PyVal
  quantity : Option PyVal
  last_price : Option PyVal
  value : Option PyVal
  deriving DecidableEq, Repr

/-- One entry of `self.account_dict`: balance, nickname and stock list. -/
structure AccountEntry where
  balance : ℚ
  nickname : Option String
  stocks : List StockDict
  deriving DecidableEq, Repr

/-- The account ledger `self.account_dict`: an insertion-ordered map from
account-number strings to entries, modelled as an association list. -/
abbrev Ledger := List (String × AccountEntry)

/-- Python `str.lower()` for the ASCII strings this code handles. -/
def lowerChar (c : Char) : Char :=
  if 'A' ≤ c ∧ c ≤ 'Z' then Char.ofNat (c.toNat + 32) else c

/-- Python `str.lower()`, character by character. -/
def strToLower (s : String) : String :=
  ⟨s.data.map lowerChar⟩

/-- Dict lookup: first entry with the given key. -/
def lookupAcct : Ledger → String → Option AccountEntry
  | [], _ => none
  | (k, e) :: rest, key => if k = key then some e else lookupAcct rest key

/-- Python `key in dict`. -/
def memAcct (led : Ledger) (key : String) : Bool :=
  (lookupAcct led key).isSome

/-- Replace the value at an existing key, keeping its position (Python dict
assignment on a present key). -/
def replaceAcct : Ledger → String → AccountEntry → Ledger
  | [], _, _ => []
  | (k, e) :: rest, key, v =>
      if k = key then (k, v) :: rest else (k, e) :: replaceAcct rest key v

/-- Python dict assignment `d[key] = v`: replace in place if the key is
present, else append at the end (insertion order). -/
def dictSet (led : Ledger) (key : String) (v : AccountEntry) : Ledger :=
  if memAcct led key then replaceAcct led key v else led ++ [(key, v)]

/-! ## String and float helpers -/

/-- Value of a digit string, most significant digit first. -/
def digitsVal (ds : List Char) : ℕ :=
  ds.foldl (fun a c => a * 10 + (c.toNat - 48)) 0

/-- Unsigned part of a Python float literal: digits with an optional
fractional part, at least one digit overall. -/
def parseFloatCore (cs : List Char) : Option ℚ :=
  let ip := cs.takeWhile Char.isDigit
  let rest := cs.dropWhile Char.isDigit
  match rest with
  | [] => if ip.isEmpty then none else some (digitsVal ip)
  | '.' :: rest2 =>
      let fp := rest2.takeWhile Char.isDigit
      let rest3 := rest2.dropWhile Char.isDigit
      if rest3.isEmpty then
        if ip.isEmpty ∧ fp.isEmpty then none
        else some ((digitsVal ip : ℚ) + (digitsVal fp : ℚ) / 10 ^ fp.length)
      else none
  | _ => none

/-- Python `float(s)` restricted to finite decimal literals with an
optional sign (the exponent, `inf` and `nan` spellings never occur in the
currency and quantity strings this code converts).  `none` models the
`ValueError` that `float` raises on anything else. -/
def pyFloatOfString (s : String) : Option ℚ :=
  match s.data with
  | '-' :: rest => (parseFloatCore rest).map (fun q => -q)
  | '+' :: rest => parseFloatCore rest
  | cs => parseFloatCore cs

/-- Python `float(v)` on a runtime value. -/
def pyFloat : PyVal → Except PyExc ℚ
  | .float q => .ok q
  | .int n => .ok (n : ℚ)
  | .str s =>
      match pyFloatOfString s with
      | some q => .ok q
      | none => .error (.valueError "could not convert string to float")
  | .pynone => .error (.typeError "float() argument must be a string or a number")

/-- Dict access `d[key]` on an optional field: `KeyError` when absent. -/
def pyGet (v : Option PyVal) (key : String) : Except PyExc PyVal :=
  match v with
  | some x => .ok x
  | none => .error (.keyError key)

/-! ## Ledger operations (`create_stock_dict`, `validate_stocks`,
`set_account_dict`, `add_stock_to_account_dict`) -/

/-- `create_stock_dict(ticker, quantity, last_price, value)`: builds the
four-field stock dict (the list-append convenience parameter is dropped,
callers in scope pass fresh singleton lists). -/
def create_stock_dict (ticker : String) (quantity last_price value : ℚ) : StockDict :=
  { ticker := some (.str ticker)
    quantity := some (.float quantity)
    last_price := some (.float last_price)
    value := some (.float value) }

/-- One stock dict passes the checks inside the loop of `validate_stocks`:
all four keys present, none of them `None`, ticker a `str` and the other
three `float` (`type(x) is not float` rejects ints as the code does).
A missing key raises `KeyError`, caught by the `except` that returns
`False`, so absence also yields `false` here. -/
def validStock (s : StockDict) : Bool :=
  match s.ticker, s.quantity, s.last_price, s.value with
  | some t, some q, some lp, some v =>
      if t = .pynone ∨ q = .pynone ∨ lp = .pynone ∨ v = .pynone then
        false
      else
        match t, q, lp, v with
        | .str _, .float _, .float _, .float _ => true
        | _, _, _, _ => false
  | _, _, _, _ => false

/-- `validate_stocks(stocks)`: `True` if `stocks` is `None` or every entry
is valid, `False` as soon as one entry is malformed. -/
def validate_stocks : Option (List StockDict) → Bool
  | none => true
  | some stocks => stocks.all validStock

/-- `set_account_dict(account_num, balance, nickname, stocks, overwrite)`.
Returns the success flag together with the resulting ledger (the Python
method mutates `self.account_dict` in place). -/
def set_account_dict (led : Ledger) (account_num : String) (balance : Option ℚ)
    (nickname : Option String) (stocks : Option (List StockDict))
    (overwrite : Bool) : Bool × Ledger :=
  if overwrite ∨ ¬ memAcct led account_num then
    if ¬ validate_stocks stocks then
      (false, led)
    else
      (true, dictSet led account_num
        { balance := balance.getD 0
          nickname := nickname
          stocks := stocks.getD [] })
  else
    (false, led)

/-- Python `float + v` where the left operand is a float: defined for
floats and ints, a `TypeError` otherwise. -/
def pyAddFloat (q : ℚ) : PyVal → Except PyExc ℚ
  | .float v => .ok (q + v)
  | .int n => .ok (q + (n : ℚ))
  | .str _ => .error (.typeError "unsupported operand type")
  | .pynone => .error (.typeError "unsupported operand type")

/-- `add_stock_to_account_dict(account_num, stock)`: if the account exists,
append the stock to its list and add `stock["value"]` to its balance,
returning `True`; else return `False`.  The `stock["value"]` access can
raise `KeyError`, and the `+=` can raise `TypeError`; both propagate to the
caller (there is no `try` in this method). -/
def add_stock_to_account_dict (led : Ledger) (account_num : String)
    (stock : StockDict) : Except PyExc (Bool × Ledger) :=
  match lookupAcct led account_num with
  | some entry =>
      match stock.value with
      | none => .error (.keyError "value")
      | some v =>
          match pyAddFloat entry.balance v with
          | .error e => .error e
          | .ok newBal =>
              .ok (true, replaceAcct led account_num
                { entry with stocks := entry.stocks ++ [stock], balance := newBal })
  | none => .ok (false, led)

/-- A malformed stock dict: the quantity is an `int` (not a `float`) and
the last price is `None`, so `validate_stocks` rejects it. -/
def badStockExample : StockDict :=
  { ticker := some (.str "NVDA")
    quantity := some (.int 2)
    last_price := some .pynone
    value := some (.float 5) }

/-! ## Order-type decision (lines 514-570 of `transaction`) -/

/-- Round half to even on rationals: the tie-breaking rule of Python
`round`. -/
def roundHalfEven (x : ℚ) : ℤ :=
  let f := ⌊x⌋
  if x - f < 1/2 then f
  else if 1/2 < x - f then f + 1
  else if f % 2 = 0 then f else f + 1

/-- Python `round(x, n)`, modelled on exact rationals (the binary
floating-point representation error of CPython floats is abstracted
away). -/
def pyRound (x : ℚ) (n : ℕ) : ℚ :=
  (roundHalfEven (x * 10 ^ n) : ℚ) / 10 ^ n

inductive OrderType where
  | market
  | limit
  deriving DecidableEq, Repr

/-- The parts of the order ticket that the decision block of `transaction`
fills in: the extended-hours flag, the rounding precision, the chosen order
type, and the limit price filled into the UI (if any). -/
structure OrderPlan where
  extended : Bool
  precision : ℕ
  orderType : OrderType
  limitPrice : Option ℚ
  deriving DecidableEq, Repr

/-- Lines 514-570 of `transaction`: `extended` starts `False` and
`precision` at 3, both flipped (to `True` / 2) when the extended-hours
control is visible; then `if float(last_price) < 1 or extended:` picks a
limit order with `wanted_price = round(last_price ± difference_price,
precision)` where `difference_price = 0.01 if float(last_price) > 0.1 else
0.0001` (the buy branch adds, the sell branch subtracts), else a market
order. -/
def order_plan (last_price : ℚ) (extendedVisible : Bool) (action : String) : OrderPlan :=
  let extended := extendedVisible
  let precision : ℕ := if extendedVisible then 2 else 3
  if last_price < 1 ∨ extended = true then
    let wanted_price :=
      if strToLower action = "buy" then
        let difference_price : ℚ := if last_price > 1/10 then 1/100 else 1/10000
        pyRound (last_price + difference_price) precision
      else
        let difference_price : ℚ := if last_price > 1/10 then 1/100 else 1/10000
        pyRound (last_price - difference_price) precision
    { extended := extended, precision := precision,
      orderType := .limit, limitPrice := some wanted_price }
  else
    { extended := extended, precision := precision,
      orderType := .market, limitPrice := none }

/-! ## Summary of holdings (`summary_holdings`) -/

/-- One entry of the `unique_stocks` dict built by `summary_holdings`. -/
structure SummEntry where
  quantity : ℚ
  last_price : ℚ
  value : ℚ
  deriving DecidableEq, Repr

/-- The `unique_stocks` dict: keyed by the raw ticker value (any Python
value can be a dict key; for validated stocks it is always a string). -/
abbrev SummMap := List (PyVal × SummEntry)

/-- Dict lookup in the summary map. -/
def lookupSumm : SummMap → PyVal → Option SummEntry
  | [], _ => none
  | (k, e) :: rest, key => if k = key then some e else lookupSumm rest key

/-- In-place update of an existing summary key. -/
def replaceSumm : SummMap → PyVal → SummEntry → SummMap
  | [], _, _ => []
  | (k, e) :: rest, key, v =>
      if k = key then (k, v) :: rest else (k, e) :: replaceSumm rest key v

/-- The body of the inner loop of `summary_holdings`: if the ticker is new,
insert a fresh entry with `float`-converted quantity, last price and value;
otherwise add the quantity and value onto the existing entry (the stored
last price is left untouched). -/
def summaryAddStock (S : SummMap) (s : StockDict) : Except PyExc SummMap := do
  let t ← pyGet s.ticker "ticker"
  match lookupSumm S t with
  | none => do
      let q ← pyFloat (← pyGet s.quantity "quantity")
      let lp ← pyFloat (← pyGet s.last_price "last_price")
      let v ← pyFloat (← pyGet s.value "value")
      pure (S ++ [(t, { quantity := q, last_price := lp, value := v })])
  | some e => do
      let q ← pyFloat (← pyGet s.quantity "quantity")
      let v ← pyFloat (← pyGet s.value "value")
      pure (replaceSumm S t
        { quantity := e.quantity + q, last_price := e.last_price, value := e.value + v })

/-- `summary_holdings()`: fold the two nested loops (accounts in ledger
order, stocks in list order) over an initially empty `unique_stocks`.
A pure read: the ledger itself is not touched. -/
def summary_holdings (led : Ledger) : Except PyExc SummMap :=
  led.foldlM (fun S p => p.2.stocks.foldlM summaryAddStock S) []

/-- Raw ticker value of a stock dict (defined for validated stocks). -/
def tickerOf (s : StockDict) : PyVal :=
  (s.ticker).getD .pynone

/-- Quantity of a validated stock dict. -/
def qOf (s : StockDict) : ℚ :=
  match s.quantity with
  | some (.float q) => q
  | _ => 0

/-- Last price of a validated stock dict. -/
def lpOf (s : StockDict) : ℚ :=
  match s.last_price with
  | some (.float q) => q
  | _ => 0

/-- Value of a validated stock dict. -/
def vOf (s : StockDict) : ℚ :=
  match s.value with
  | some (.float q) => q
  | _ => 0

/-- The pure (exception-free) form of `summaryAddStock`, to which it
evaluates on validated stocks. -/
def summaryStepPure (S : SummMap) (s : StockDict) : SummMap :=
  match lookupSumm S (tickerOf s) with
  | none => S ++ [(tickerOf s,
      { quantity := qOf s, last_price := lpOf s, value := vOf s })]
  | some e => replaceSumm S (tickerOf s)
      { quantity := e.quantity + qOf s, last_price := e.last_price,
        value := e.value + vOf s }

/-- All positions of the ledger, in traversal order of the two nested
loops of `summary_holdings`. -/
def allStocks (led : Ledger) : List StockDict :=
  led.flatMap (fun p => p.2.stocks)

/-- A two-account demonstration ledger holding the same ticker at two
different last prices (1 first, 2 second). -/
def twoPriceLedger : Ledger :=
  [("Z11111111", { balance := 1, nickname := some "Individual",
                   stocks := [create_stock_dict "AAPL" 1 1 1] }),
   ("Z22222222", { balance := 2, nickname := some "Roth",
                   stocks := [create_stock_dict "AAPL" 1 2 2] })]

/-! ## Account enumeration (`get_list_of_accounts`, lines 776-797) -/

/-- Attempt to match `(Z|\d)\d{6,}` followed by the lookahead `(?=\))` at
the start of `cs`, the text immediately after a `(`.  Taking the maximal
digit run is equivalent to the regex engine's greedy-with-backtracking
behaviour: a successful match must be followed by `)`, and giving digits
back would leave a digit, never `)`, as the next character. -/
def tokenAfterParen (cs : List Char) : Option (List Char) :=
  match cs with
  | [] => none
  | c :: rest =>
      if c = 'Z' ∨ c.isDigit then
        let ds := rest.takeWhile Char.isDigit
        if 6 ≤ ds.length ∧ (rest.dropWhile Char.isDigit).head? = some ')' then
          some (c :: ds)
        else none
      else none

/-- `re.search(r'(?<=\()(Z|\d)\d{6,}(?=\))', text)`: the match at the
first `(` that is followed by a full token. -/
def findTokenL : List Char → Option (List Char)
  | [] => none
  | c :: rest =>
      if c = '(' then
        match tokenAfterParen rest with
        | some tok => some tok
        | none => findTokenL rest
      else findTokenL rest

/-- The `account_number` extraction of `get_list_of_accounts`. -/
def findAccountNumber (s : String) : Option String :=
  (findTokenL s.data).map List.asString

/-- Helper for the lazy nickname regex: scan for the next `(`,
accumulating the characters already consumed (in reverse). -/
def nickFrom : List Char → List Char → Option (List Char)
  | _, [] => none
  | acc, c :: rest => if c = '(' then some acc.reverse else nickFrom (c :: acc) rest

/-- `re.search(r'^.+?(?=\()', text)`: the shortest non-empty prefix that
is followed by a `(`; `none` when the text is empty or has no `(` after
its first character. -/
def findNicknameL (cs : List Char) : Option (List Char) :=
  match cs with
  | [] => none
  | c :: rest => nickFrom [c] rest

/-- The `nickname` extraction of `get_list_of_accounts`. -/
def findNickname (s : String) : Option String :=
  (findNicknameL s.data).map List.asString

/-- The loop of `get_list_of_accounts` with `set_flag=True`: for each
dropdown option text, when both regexes match, call `set_account_dict`
with only the account number and nickname (balance and stocks default,
`overwrite=False`); otherwise leave the ledger alone. -/
def get_list_of_accounts (options : List String) (led : Ledger) : Ledger :=
  options.foldl
    (fun led opt =>
      match findAccountNumber opt, findNickname opt with
      | some acct, some nick => (set_account_dict led acct none (some nick) none false).2
      | _, _ => led)
    led

/-- What the regex actually accepts as a parenthesized token: a `Z` or a
digit, followed by at least six digits. -/
def regexTokenSpec (tok : List Char) : Prop :=
  ∃ c ds, tok = c :: ds ∧ (c = 'Z' ∨ c.isDigit = true) ∧
    (∀ d ∈ ds, d.isDigit = true) ∧ 6 ≤ ds.length

/-- Modelled from the spec's words for the claim: a token that is
"custodian-prefixed (Z-prefixed) or purely numeric with at least 6
digits". -/
def claimTokenOk (tok : List Char) : Bool :=
  (match tok with
   | 'Z' :: ds => ds.all Char.isDigit && decide (6 ≤ ds.length)
   | _ => false) ||
  (tok.all Char.isDigit && decide (6 ≤ tok.length))

/-- Modelled from the spec's words for the claim: the option text contains
a parenthesized identifier satisfying `claimTokenOk`. -/
def claimHasToken : List Char → Bool
  | [] => false
  | c :: rest =>
      if c = '(' then
        (decide ((rest.dropWhile (fun x => x ≠ ')')).head? = some ')') &&
          claimTokenOk (rest.takeWhile (fun x => x ≠ ')'))) ||
        claimHasToken rest
      else claimHasToken rest

/-! ## The positions-CSV row loop (`getAccountInfo`, lines 339-384) -/

/-- Python `str(x)` on a value that is either a string or `None`. -/
def pyStr : Option String → String
  | none => "None"
  | some s => s

/-- Python `s.replace(c, "")` for a single-character pattern: removing
every occurrence is the same as filtering the character out. -/
def removeChar (c : Char) (s : String) : String :=
  ⟨s.data.filter (fun x => x ≠ c)⟩

/-- Is `needle` a leading segment of `hay`? -/
def listLeads : List Char → List Char → Bool
  | [], _ => true
  | _ :: _, [] => false
  | n :: ns, h :: hs => n == h && listLeads ns hs

/-- Does `hay` contain `needle` as a contiguous run? -/
def listHasSub (needle : List Char) : List Char → Bool
  | [] => needle.isEmpty
  | h :: hs => listLeads needle (h :: hs) || listHasSub needle hs

/-- Python `needle in hay` on strings. -/
def strContains (hay needle : String) : Bool :=
  listHasSub needle.data hay.data

/-- Python `float(s)` as an `Except`: `ValueError` on a non-numeric
string. -/
def floatOfString (s : String) : Except PyExc ℚ :=
  match pyFloatOfString s with
  | some q => .ok q
  | none => .error (.valueError "could not convert string to float")

/-- A row of the positions CSV as produced by `csv.DictReader` (the
`Description` column is read but never used by the loop).  A `none` field
models the Python value `None` that `DictReader` substitutes for missing
trailing cells. -/
structure CsvRow where
  accountNumber : Option String
  accountName : Option String
  symbol : Option String
  quantity : Option String
  lastPrice : Option String
  currentValue : Option String
  deriving DecidableEq, Repr

/-- The row loop of `getAccountInfo`: skip rows whose account number is
`None`; stop at the first account number containing `"and"` (disclaimer
trailer); `row["Account Number"][0]` raises `IndexError` on an empty
string; skip Fidelity-managed accounts starting with `Y`; strip `$` and
`-` from the value and last-price strings and `-` from the quantity; skip
pending tickers and rows with an empty value; treat a value of `n/a` as
the int 0; substitute the value for a blank last price and 1 for a blank
quantity; convert with `float` (which can raise `ValueError`); then merge
into the ledger via `set_account_dict` (no overwrite), falling back to
`add_stock_to_account_dict` when the account already exists. -/
def processRows (rows : List CsvRow) (led : Ledger) : Except PyExc Ledger :=
  match rows with
  | [] => .ok led
  | row :: rest =>
      match row.accountNumber with
      | none => processRows rest led
      | some acct =>
          if strContains acct "and" then .ok led
          else
            match acct.data with
            | [] => .error .indexError
            | a0 :: _ =>
                if a0 = 'Y' then processRows rest led
                else
                  let val := removeChar '-' (removeChar '$' (pyStr row.currentValue))
                  let last_price := removeChar '-' (removeChar '$' (pyStr row.lastPrice))
                  let quantity := removeChar '-' (pyStr row.quantity)
                  let ticker := pyStr row.symbol
                  if strContains ticker "Pending" then processRows rest led
                  else if val.length = 0 then processRows rest led
                  else
                    match (if quantity.length = 0 then .ok 1 else floatOfString quantity : Except PyExc ℚ) with
                    | .error e => .error e
                    | .ok qv =>
                        match (if last_price.length = 0 then
                                (if strToLower val = "n/a" then .ok 0 else floatOfString val)
                               else floatOfString last_price : Except PyExc ℚ) with
                        | .error e => .error e
                        | .ok lpv =>
                            match (if strToLower val = "n/a" then .ok 0
                                   else floatOfString val : Except PyExc ℚ) with
                            | .error e => .error e
                            | .ok vv =>
                                let stock := create_stock_dict ticker qv lpv vv
                                match set_account_dict led acct (some vv)
                                    row.accountName (some [stock]) false with
                                | (true, led2) => processRows rest led2
                                | (false, led2) =>
                                    match add_stock_to_account_dict led2 acct stock with
                                    | .ok (_, led3) => processRows rest led3
                                    | .error e => .error e

/-- What the claim asserts of accepted positions, minus the non-empty
ticker: a `create_stock_dict`-shaped record with non-negative quantity,
last price and value. -/
def nonnegStock (s : StockDict) : Prop :=
  ∃ t q lp v, s = create_stock_dict t q lp v ∧ 0 ≤ q ∧ 0 ≤ lp ∧ 0 ≤ v

/-- Every position of every account of the ledger is `nonnegStock`. -/
def nonnegLedger (led : Ledger) : Prop :=
  ∀ p ∈ led, ∀ s ∈ p.2.stocks, nonnegStock s

/-- A CSV row whose account-number cell is the empty string (all other
fields well formed). -/
def emptyAcctRow : CsvRow :=
  { accountNumber := some ""
    accountName := some "Individual"
    symbol := some "NVDA"
    quantity := some "2"
    lastPrice := some "$120.00"
    currentValue := some "$240.00" }

/-- A well-formed CSV row (integer-valued cells, blank quantity standing
for a single cash-equivalent position). -/
def demoCsvRow : CsvRow :=
  { accountNumber := some "Z12345678"
    accountName := some "Individual"
    symbol := some "SPAXX"
    quantity := some ""
    lastPrice := some "$120"
    currentValue := some "$240" }

/-! ## The order workflow (`transaction`, lines 429-659) -/

/-- ASCII uppercase of one character (Python `str.upper()` on the ASCII
account and ticker strings this code handles). -/
def upperChar (c : Char) : Char :=
  if 'a' ≤ c ∧ c ≤ 'z' then Char.ofNat (c.toNat - 32) else c

/-- Python `str.upper()`, character by character. -/
def strToUpper (s : String) : String :=
  ⟨s.data.map upperChar⟩

/-- Helper for Python `str.title()`: uppercase each alphabetic character
that does not follow an alphabetic character, lowercase the rest.  The
flag records whether the previous character was alphabetic. -/
def titleAux : Bool → List Char → List Char
  | _, [] => []
  | prevAlpha, c :: rest =>
      if c.isAlpha then
        (if prevAlpha then lowerChar c else upperChar c) :: titleAux true rest
      else c :: titleAux false rest

/-- Python `str.title()`. -/
def pyTitle (s : String) : String :=
  ⟨titleAux false s.data⟩

/-- The character-filtering loop of the error-message cleanup in
`transaction`: drop a space whose previous character is a space — for the
first character Python's `error_message[i-1]` wraps around to the *last*
character — and drop every newline and tab.  The previous character is
always taken from the original string. -/
def squeezeAux : Char → List Char → List Char
  | _, [] => []
  | prev, c :: rest =>
      if (c = ' ' ∧ prev = ' ') ∨ c = '\n' ∨ c = '\t' then squeezeAux c rest
      else c :: squeezeAux c rest

/-- The whole filtering loop, seeded with the wrap-around previous
character `error_message[-1]`. -/
def pyFilterSpaces (s : String) : String :=
  match s.data.getLast? with
  | none => ""
  | some lastChar => ⟨squeezeAux lastChar s.data⟩

/-- The error-message cleanup of `transaction`: filter repeated
whitespace, delete every occurrence of `critical`, strip, and delete the
remaining newlines. -/
def pyCleanError (error_message : String) : String :=
  let filtered_error := pyFilterSpaces error_message
  let filtered_error := (filtered_error.replace "critical" "").trim
  filtered_error.replace "\n" ""

/-- One possible behaviour of the brokerage page during `transaction`:
the outcome of every page interaction the method performs, in program
order.  Fields that the code parametrises with data derived from the
arguments (the filled symbol, the upper-cased account, the title-cased
action, the filled quantity and limit price) take that data as an
argument.  The close-dialog clicks appear for completeness; their
exceptions are swallowed by `except Exception: pass` with no observable
effect. -/
structure PageBehavior where
  waitLoad : Except PyExc Unit
  url : String
  gotoTrade : Except PyExc Unit
  clickAcctDropdown : Except PyExc Unit
  acctOptionVisible : String → Except PyExc Bool
  reloadPage : Except PyExc Unit
  clickAcctDropdown2 : Except PyExc Unit
  clickAcctOption : String → Except PyExc Unit
  clickSymbol : Except PyExc Unit
  fillSymbol : String → Except PyExc Unit
  pressEnter : Except PyExc Unit
  waitQuotePanel : Except PyExc Unit
  lastPriceText : Except PyExc String
  expandedVisible : Except PyExc Bool
  clickExpand : Except PyExc Unit
  waitCalcShares : Except PyExc Unit
  extendedTextVisible : Except PyExc Bool
  extendedOffVisible : Except PyExc Bool
  checkExtended : Except PyExc Unit
  clickActionLabel : Except PyExc Unit
  waitActionOption : String → Except PyExc Unit
  clickActionOption : String → Except PyExc Unit
  clickQuantityBox : Except PyExc Unit
  fillQuantity : ℚ → Except PyExc Unit
  clickOrderTypeDropdown : Except PyExc Unit
  clickLimitOption : Except PyExc Unit
  clickLimitPriceBox : Except PyExc Unit
  fillLimitPrice : ℚ → Except PyExc Unit
  clickOrderTypeContainer : Except PyExc Unit
  clickMarketOption : Except PyExc Unit
  clickPreview : Except PyExc Unit
  waitPlaceOrder : Except PyExc Unit
  errorLabelText : Except PyExc String
  closeDialog1 : Except PyExc Unit
  inlineAlertText : Except PyExc String
  closeDialog2 : Except PyExc Unit
  previewAcctVisible : String → Except PyExc Bool
  previewSymbolVisible : String → Except PyExc Bool
  previewActionVisible : String → Except PyExc Bool
  previewQuantityVisible : ℚ → Except PyExc Bool
  clickPlaceOrder : Except PyExc Unit
  waitOrderReceived : Except PyExc Unit

/-- A literal `return` site of `transaction`: `(True, None)` or
`(False, message)`. -/
inductive TxOutcome where
  | success
  | failure (msg : String)
  deriving DecidableEq, Repr

/-- The order-entry page URL that `transaction` navigates to. -/
def tradeUrl : String :=
  "https://digital.fidelity.com/ftgw/digital/trade-equity/index/orderEntry"

/-- The error-extraction path taken when the Place-order control fails to
appear: try the labelled error region, then the inline alert; an
exception inside either `try` leaves the message empty (and an exception
from the close-dialog click after a successful read keeps the message);
clean the message, or fall back to the generic text. -/
def extractedErrorMessage (b : PageBehavior) : String :=
  let error_message :=
    match b.errorLabelText with
    | .ok s => s
    | .error _ => ""
  let error_message :=
    if error_message = "" then
      match b.inlineAlertText with
      | .ok s => s
      | .error _ => ""
    else error_message
  if error_message ≠ "" then pyCleanError error_message
  else "Could not retrieve error message from popup"

/-- The body of `transaction` inside its outer `try`, step by step.  Each
Python `return` site becomes a `TxOutcome`; every uncaught exception is
an `Except.error`.  The two inner `except PlaywrightTimeoutError`
handlers appear as matches on `.timeout`: any other exception at those
two waits propagates (`throw`) to the outer handler.  (The original
message `Timed out waiting for 'Order received'` is rendered without its
inner quotes.) -/
def transactionBody (b : PageBehavior) (stock : String) (quantity : ℚ)
    (action : String) (account : String) (dry : Bool) : Except PyExc TxOutcome := do
  let _ ← b.waitLoad
  if b.url ≠ tradeUrl then
    let _ ← b.gotoTrade
  let _ ← b.clickAcctDropdown
  let vis ← b.acctOptionVisible (strToUpper account)
  if !vis then
    let _ ← b.reloadPage
    let _ ← b.clickAcctDropdown2
  let _ ← b.clickAcctOption (strToUpper account)
  let _ ← b.clickSymbol
  let _ ← b.fillSymbol stock
  let _ ← b.pressEnter
  let _ ← b.waitQuotePanel
  let lastPriceRaw ← b.lastPriceText
  let last_price := removeChar '$' lastPriceRaw
  let expVis ← b.expandedVisible
  if expVis then
    let _ ← b.clickExpand
    let _ ← b.waitCalcShares
  let extVis ← b.extendedTextVisible
  if extVis then
    let offVis ← b.extendedOffVisible
    if offVis then
      let _ ← b.checkExtended
  let _ ← b.clickActionLabel
  let _ ← b.waitActionOption (pyTitle (strToLower action))
  let _ ← b.clickActionOption (pyTitle (strToLower action))
  let _ ← b.clickQuantityBox
  let _ ← b.fillQuantity quantity
  let lastPriceF ← floatOfString last_price
  let plan := order_plan lastPriceF extVis action
  if plan.orderType = .limit then
    let _ ← b.clickOrderTypeDropdown
    let _ ← b.clickLimitOption
    let _ ← b.clickLimitPriceBox
    let _ ← b.fillLimitPrice (plan.limitPrice.getD 0)
  else
    let _ ← b.clickOrderTypeContainer
    let _ ← b.clickMarketOption
  let _ ← b.clickPreview
  match b.waitPlaceOrder with
  | .error (.timeout _) => return .failure (extractedErrorMessage b)
  | .error e => throw e
  | .ok _ =>
      let pv1 ← b.previewAcctVisible (strToUpper account)
      if !pv1 then
        return .failure "Order preview is not what is expected"
      let pv2 ← b.previewSymbolVisible (strToUpper stock)
      if !pv2 then
        return .failure "Order preview is not what is expected"
      let pv3 ← b.previewActionVisible (pyTitle (strToLower action))
      if !pv3 then
        return .failure "Order preview is not what is expected"
      let pv4 ← b.previewQuantityVisible quantity
      if !pv4 then
        return .failure "Order preview is not what is expected"
      if !dry then
        let _ ← b.clickPlaceOrder
        match b.waitOrderReceived with
        | .ok _ => return .success
        | .error (.timeout m) =>
            return .failure ("Timed out waiting for Order received: " ++ m)
        | .error e => throw e
      else
        return .success

/-- `str(e)` of an exception: its message text. -/
def excText : PyExc → String
  | .timeout m => m
  | .valueError m => m
  | .typeError m => m
  | .keyError m => m
  | .indexError => "string index out of range"
  | .other m => m

/-- The whole `transaction` method: the body wrapped in the outer
`try/except`.  `except PlaywrightTimeoutError` prefixes the timeout text;
`except Exception as e` returns `(False, e)` — the exception object,
carried here by its text. -/
def transaction (b : PageBehavior) (stock : String) (quantity : ℚ)
    (action : String) (account : String) (dry : Bool) : Bool × Option String :=
  match transactionBody b stock quantity action account dry with
  | .ok .success => (true, none)
  | .ok (.failure m) => (false, some m)
  | .error (.timeout m) =>
      (false, some ("Driver timed out. Order not completed: " ++ m))
  | .error e => (false, some (excText e))

/-- A page behaviour whose very first wait raises a generic exception. -/
def failingBehavior : PageBehavior :=
  { waitLoad := .error (.other "boom")
    url := tradeUrl
    gotoTrade := .ok ()
    clickAcctDropdown := .ok ()
    acctOptionVisible := fun _ => .ok true
    reloadPage := .ok ()
    clickAcctDropdown2 := .ok ()
    clickAcctOption := fun _ => .ok ()
    clickSymbol := .ok ()
    fillSymbol := fun _ => .ok ()
    pressEnter := .ok ()
    waitQuotePanel := .ok ()
    lastPriceText := .ok "$120.00"
    expandedVisible := .ok false
    clickExpand := .ok ()
    waitCalcShares := .ok ()
    extendedTextVisible := .ok false
    extendedOffVisible := .ok false
    checkExtended := .ok ()
    clickActionLabel := .ok ()
    waitActionOption := fun _ => .ok ()
    clickActionOption := fun _ => .ok ()
    clickQuantityBox := .ok ()
    fillQuantity := fun _ => .ok ()
    clickOrderTypeDropdown := .ok ()
    clickLimitOption := .ok ()
    clickLimitPriceBox := .ok ()
    fillLimitPrice := fun _ => .ok ()
    clickOrderTypeContainer := .ok ()
    clickMarketOption := .ok ()
    clickPreview := .ok ()
    waitPlaceOrder := .ok ()
    errorLabelText := .ok ""
    closeDialog1 := .ok ()
    inlineAlertText := .ok ""
    closeDialog2 := .ok ()
    previewAcctVisible := fun _ => .ok true
    previewSymbolVisible := fun _ => .ok true
    previewActionVisible := fun _ => .ok true
    previewQuantityVisible := fun _ => .ok true
    clickPlaceOrder := .ok ()
    waitOrderReceived := .ok () }

end FidelityAPI

namespace FidelityAPI

/-! ## Ledger lemmas -/

theorem lookupAcct_append_single_self (led : Ledger) (k : String) (v : AccountEntry)
    (h : lookupAcct led k = none) : lookupAcct (led ++ [(k, v)]) k = some v := by
  induction led with
  | nil => simp [lookupAcct]
  | cons p rest ih =>
      obtain ⟨k', e'⟩ := p
      by_cases hk : k' = k
      · simp [lookupAcct, hk] at h
      · simp only [lookupAcct, hk, if_false, List.cons_append] at h ⊢
        exact ih h

theorem lookupAcct_replaceAcct_self (led : Ledger) (k : String) (v : AccountEntry)
    (h : (lookupAcct led k).isSome) : lookupAcct (replaceAcct led k v) k = some v := by
  induction led with
  | nil => simp [lookupAcct] at h
  | cons p rest ih =>
      obtain ⟨k', e'⟩ := p
      by_cases hk : k' = k
      · simp [replaceAcct, lookupAcct, hk]
      · simp only [lookupAcct, hk, if_false] at h
        simp only [replaceAcct, lookupAcct, hk, if_false]
        exact ih h

theorem lookupAcct_dictSet_self (led : Ledger) (k : String) (v : AccountEntry) :
    lookupAcct (dictSet led k v) k = some v := by
  unfold dictSet memAcct
  by_cases h : (lookupAcct led k).isSome
  · simp only [h, if_true]
    exact lookupAcct_replaceAcct_self led k v h
  · simp only [h, if_false]
    exact lookupAcct_append_single_self led k v (by
      cases hl : lookupAcct led k with
      | none => rfl
      | some e => rw [hl] at h; simp at h)

/-! ## Claim theorems: ledger operations -/

/-- **C3.** For every ledger and every account number already present in it,
`set_account_dict` with `overwrite = False` leaves the ledger unchanged and
returns `False`; with `overwrite = True` and a valid stock list it replaces
that account's balance, nickname and stock list with the supplied values
and returns `True`. -/
theorem set_account_dict_overwrite_semantics (led : Ledger) (acct : String)
    (b : ℚ) (nick : Option String) (stocks : List StockDict)
    (hmem : memAcct led acct = true) :
    set_account_dict led acct (some b) nick (some stocks) false = (false, led) ∧
    (validate_stocks (some stocks) = true →
      ∃ led2,
        set_account_dict led acct (some b) nick (some stocks) true = (true, led2) ∧
        lookupAcct led2 acct =
          some { balance := b, nickname := nick, stocks := stocks }) := by
  constructor
  · unfold set_account_dict
    simp [hmem]
  · intro hval
    refine ⟨dictSet led acct { balance := b, nickname := nick, stocks := stocks }, ?_, ?_⟩
    · unfold set_account_dict
      simp [hval, Option.getD]
    · exact lookupAcct_dictSet_self led acct _

/-- Concrete instance of the `set_account_dict` overwrite semantics. -/
theorem set_account_dict_overwrite_semantics_witness :
    set_account_dict [("Z12345678", { balance := 1, nickname := some "Old", stocks := [] })]
      "Z12345678" (some 5) (some "Individual")
      (some [create_stock_dict "NVDA" 2 120 240]) false =
      (false, [("Z12345678", { balance := 1, nickname := some "Old", stocks := [] })]) ∧
    lookupAcct [("Z12345678",
        { balance := 5, nickname := some "Individual",
          stocks := [create_stock_dict "NVDA" 2 120 240] })] "Z12345678" =
      some { balance := 5, nickname := some "Individual",
             stocks := [create_stock_dict "NVDA" 2 120 240] } := by
  have h := set_account_dict_overwrite_semantics
    [("Z12345678", { balance := 1, nickname := some "Old", stocks := [] })]
    "Z12345678" 5 (some "Individual") [create_stock_dict "NVDA" 2 120 240] (by decide)
  obtain ⟨led2, hset, hlook⟩ := h.2 (by decide)
  have h2 : set_account_dict
      [("Z12345678", { balance := 1, nickname := some "Old", stocks := [] })]
      "Z12345678" (some 5) (some "Individual")
      (some [create_stock_dict "NVDA" 2 120 240]) true =
      (true, [("Z12345678",
        { balance := 5, nickname := some "Individual",
          stocks := [create_stock_dict "NVDA" 2 120 240] })]) := rfl
  rw [h2] at hset
  injection hset with _ h3
  rw [← h3] at hlook
  exact ⟨h.1, hlook⟩

/-- **C4.** For every account number present in the ledger and every stock
dict carrying a float `value` field, `add_stock_to_account_dict` appends
the stock to that account's list, increases the balance by exactly the
incoming value, and returns `True`. -/
theorem add_stock_to_account_dict_merge (led : Ledger) (acct : String)
    (stock : StockDict) (entry : AccountEntry) (v : ℚ)
    (hmem : lookupAcct led acct = some entry)
    (hval : stock.value = some (.float v)) :
    ∃ led2,
      add_stock_to_account_dict led acct stock = .ok (true, led2) ∧
      lookupAcct led2 acct =
        some { balance := entry.balance + v, nickname := entry.nickname,
               stocks := entry.stocks ++ [stock] } := by
  refine ⟨replaceAcct led acct
    { entry with stocks := entry.stocks ++ [stock], balance := entry.balance + v }, ?_, ?_⟩
  · unfold add_stock_to_account_dict
    rw [hmem, hval]
    rfl
  · exact lookupAcct_replaceAcct_self led acct _ (by rw [hmem]; rfl)

/-- Concrete instance of the `add_stock_to_account_dict` merge property. -/
theorem add_stock_to_account_dict_merge_witness :
    lookupAcct [("Z12345678",
        { balance := (240 : ℚ) + 10, nickname := some "Individual",
          stocks := [create_stock_dict "NVDA" 2 120 240] ++
            [create_stock_dict "AAPL" 1 10 10] })] "Z12345678" =
      some { balance := (240 : ℚ) + 10, nickname := some "Individual",
             stocks := [create_stock_dict "NVDA" 2 120 240] ++
               [create_stock_dict "AAPL" 1 10 10] } := by
  obtain ⟨led2, hadd, hlook⟩ := add_stock_to_account_dict_merge
    [("Z12345678", { balance := 240, nickname := some "Individual",
                     stocks := [create_stock_dict "NVDA" 2 120 240] })]
    "Z12345678" (create_stock_dict "AAPL" 1 10 10)
    { balance := 240, nickname := some "Individual",
      stocks := [create_stock_dict "NVDA" 2 120 240] } 10 (by decide) (by decide)
  have h2 : add_stock_to_account_dict
      [("Z12345678", { balance := 240, nickname := some "Individual",
                       stocks := [create_stock_dict "NVDA" 2 120 240] })]
      "Z12345678" (create_stock_dict "AAPL" 1 10 10) =
      .ok (true, [("Z12345678",
        { balance := (240 : ℚ) + 10, nickname := some "Individual",
          stocks := [create_stock_dict "NVDA" 2 120 240] ++
            [create_stock_dict "AAPL" 1 10 10] })]) := rfl
  rw [h2] at hadd
  injection hadd with h3
  injection h3 with _ h4
  rw [← h4] at hlook
  exact hlook

/-- **C10.** For every account number not present in the ledger,
`add_stock_to_account_dict` returns `False` and leaves the ledger entirely
unchanged: it never creates a new account entry. -/
theorem add_stock_to_account_dict_absent (led : Ledger) (acct : String)
    (stock : StockDict) (habs : lookupAcct led acct = none) :
    add_stock_to_account_dict led acct stock = .ok (false, led) := by
  unfold add_stock_to_account_dict
  rw [habs]

/-- Concrete instance of the absent-account no-op property. -/
theorem add_stock_to_account_dict_absent_witness :
    add_stock_to_account_dict
      [("Z12345678", { balance := 240, nickname := some "Individual", stocks := [] })]
      "Z99999999" (create_stock_dict "NVDA" 2 120 240) =
      .ok (false,
        [("Z12345678", { balance := 240, nickname := some "Individual", stocks := [] })]) :=
  add_stock_to_account_dict_absent _ "Z99999999" _ (by decide)

/-- **C8, counterexample.** `add_stock_to_account_dict` performs no
validation: the malformed stock dict `badStockExample` (rejected by
`validate_stocks`) is nevertheless accepted into the ledger and the call
returns `True`. -/
theorem add_stock_no_validation_counterexample :
    validStock badStockExample = false ∧
    add_stock_to_account_dict
      [("Z12345678", { balance := 0, nickname := none, stocks := [] })]
      "Z12345678" badStockExample =
      .ok (true,
        [("Z12345678",
          { balance := (0 : ℚ) + 5, nickname := none, stocks := [badStockExample] })]) :=
  ⟨rfl, rfl⟩

/-- **C8, amended.** Positions accepted through `set_account_dict` are
validated: whenever the call succeeds with an explicit stock list, every
entry of that list passes `validStock` (all four fields present, ticker a
string, the other three floats).  `add_stock_to_account_dict` bypasses
this validation, as the counterexample shows. -/
theorem set_account_dict_validates (led : Ledger) (acct : String) (b : Option ℚ)
    (nick : Option String) (stocks : List StockDict) (ow : Bool) (led2 : Ledger)
    (h : set_account_dict led acct b nick (some stocks) ow = (true, led2)) :
    ∀ s ∈ stocks, validStock s = true := by
  unfold set_account_dict at h
  by_cases hc : (ow = true ∨ ¬ memAcct led acct = true)
  · rw [if_pos hc] at h
    by_cases hv : validate_stocks (some stocks) = true
    · intro s hs
      unfold validate_stocks at hv
      exact List.all_eq_true.mp hv s hs
    · rw [if_pos (by simpa using hv)] at h
      cases h
  · rw [if_neg hc] at h
    cases h

/-- Concrete instance of the `set_account_dict` validation property. -/
theorem set_account_dict_validates_witness :
    validStock (create_stock_dict "NVDA" 2 120 240) = true :=
  set_account_dict_validates [] "Z12345678" (some 240) (some "Individual")
    [create_stock_dict "NVDA" 2 120 240] false
    [("Z12345678", { balance := 240, nickname := some "Individual",
                     stocks := [create_stock_dict "NVDA" 2 120 240] })] rfl
    (create_stock_dict "NVDA" 2 120 240) (by simp)

/-! ## Summary lemmas -/

theorem lookupSumm_append_single_self (S : SummMap) (k : PyVal) (v : SummEntry)
    (h : lookupSumm S k = none) : lookupSumm (S ++ [(k, v)]) k = some v := by
  induction S with
  | nil => simp [lookupSumm]
  | cons p rest ih =>
      obtain ⟨k', e'⟩ := p
      by_cases hk : k' = k
      · simp [lookupSumm, hk] at h
      · simp only [lookupSumm, hk, if_false, List.cons_append] at h ⊢
        exact ih h

theorem lookupSumm_append_single_other (S : SummMap) (k t : PyVal) (v : SummEntry)
    (h : k ≠ t) : lookupSumm (S ++ [(k, v)]) t = lookupSumm S t := by
  induction S with
  | nil => simp [lookupSumm, h]
  | cons p rest ih =>
      obtain ⟨k', e'⟩ := p
      by_cases hk : k' = t
      · simp [lookupSumm, hk]
      · simp only [lookupSumm, hk, if_false, List.cons_append]
        exact ih

theorem lookupSumm_replaceSumm_self (S : SummMap) (k : PyVal) (v : SummEntry)
    (h : (lookupSumm S k).isSome) : lookupSumm (replaceSumm S k v) k = some v := by
  induction S with
  | nil => simp [lookupSumm] at h
  | cons p rest ih =>
      obtain ⟨k', e'⟩ := p
      by_cases hk : k' = k
      · simp [replaceSumm, lookupSumm, hk]
      · simp only [lookupSumm, hk, if_false] at h
        simp only [replaceSumm, lookupSumm, hk, if_false]
        exact ih h

theorem lookupSumm_replaceSumm_other (S : SummMap) (k t : PyVal) (v : SummEntry)
    (h : k ≠ t) : lookupSumm (replaceSumm S k v) t = lookupSumm S t := by
  induction S with
  | nil => simp [replaceSumm]
  | cons p rest ih =>
      obtain ⟨k', e'⟩ := p
      by_cases hk : k' = k
      · subst hk
        simp [replaceSumm, lookupSumm, h]
      · by_cases ht : k' = t
        · subst ht
          simp [replaceSumm, lookupSumm, hk, Ne.symm h]
        · simp only [replaceSumm, lookupSumm, hk, ht, if_false]
          exact ih

/-- `validStock` characterised: a stock dict is valid exactly when it is a
`create_stock_dict`-shaped record. -/
theorem validStock_iff (s : StockDict) :
    validStock s = true ↔ ∃ t q lp v,
      s = { ticker := some (.str t), quantity := some (.float q),
            last_price := some (.float lp), value := some (.float v) } := by
  obtain ⟨t?, q?, lp?, v?⟩ := s
  constructor
  · intro h
    unfold validStock at h
    rcases t? with _ | t
    · cases h
    rcases q? with _ | q
    · cases h
    rcases lp? with _ | lp
    · cases h
    rcases v? with _ | v
    · cases h
    rcases t with ts | tq | tn | _ <;>
      rcases q with qs | qq | qn | _ <;>
        rcases lp with lps | lpq | lpn | _ <;>
          rcases v with vs | vq | vn | _ <;>
            simp_all
  · rintro ⟨t, q, lp, v, heq⟩
    rw [heq]
    rfl

/-- On a validated stock, `summaryAddStock` equals its pure form. -/
theorem summaryAddStock_valid (S : SummMap) (s : StockDict)
    (h : validStock s = true) :
    summaryAddStock S s = .ok (summaryStepPure S s) := by
  obtain ⟨t, q, lp, v, heq⟩ := (validStock_iff s).mp h
  subst heq
  cases hl : lookupSumm S (.str t) <;>
    simp [summaryAddStock, summaryStepPure, tickerOf, qOf, lpOf, vOf, pyGet, pyFloat,
      hl, bind, Except.bind, pure, Except.pure]

theorem foldlM_summaryAddStock_valid (stocks : List StockDict) (S : SummMap)
    (h : ∀ s ∈ stocks, validStock s = true) :
    stocks.foldlM summaryAddStock S = .ok (stocks.foldl summaryStepPure S) := by
  induction stocks generalizing S with
  | nil => rfl
  | cons s rest ih =>
      rw [List.foldlM_cons, summaryAddStock_valid S s (h s (by simp))]
      show rest.foldlM summaryAddStock (summaryStepPure S s) = _
      rw [ih (summaryStepPure S s) (fun x hx => h x (by simp [hx]))]
      rfl

/-- On a fully validated ledger, `summary_holdings` succeeds and equals the
pure fold of `summaryStepPure` over all positions in traversal order. -/
theorem summary_holdings_valid_eq (led : Ledger)
    (h : ∀ p ∈ led, ∀ s ∈ p.2.stocks, validStock s = true) :
    summary_holdings led = .ok ((allStocks led).foldl summaryStepPure []) := by
  unfold summary_holdings
  suffices H : ∀ (S : SummMap),
      led.foldlM (fun S p => p.2.stocks.foldlM summaryAddStock S) S =
        .ok ((allStocks led).foldl summaryStepPure S) from H []
  induction led with
  | nil => intro S; rfl
  | cons p rest ih =>
      intro S
      rw [List.foldlM_cons,
        foldlM_summaryAddStock_valid p.2.stocks S (h p (by simp))]
      show rest.foldlM _ (p.2.stocks.foldl summaryStepPure S) = _
      rw [ih (fun x hx s hs => h x (by simp [hx]) s hs) (p.2.stocks.foldl summaryStepPure S)]
      simp [allStocks, List.foldl_append]

theorem lookupSumm_summaryStepPure_other (S : SummMap) (s : StockDict) (t : PyVal)
    (h : tickerOf s ≠ t) :
    lookupSumm (summaryStepPure S s) t = lookupSumm S t := by
  unfold summaryStepPure
  cases hl : lookupSumm S (tickerOf s)
  · exact lookupSumm_append_single_other S (tickerOf s) t _ h
  · exact lookupSumm_replaceSumm_other S (tickerOf s) t _ h

/-- Aggregation invariant of the pure summary fold. -/
theorem lookupSumm_foldl (ps : List StockDict) (S : SummMap) (t : PyVal) :
    lookupSumm (ps.foldl summaryStepPure S) t =
      match lookupSumm S t, ps.filter (fun s => tickerOf s == t) with
      | none, [] => none
      | none, s0 :: tl => some
          { quantity := qOf s0 + (tl.map qOf).sum
            last_price := lpOf s0
            value := vOf s0 + (tl.map vOf).sum }
      | some e, fl => some
          { quantity := e.quantity + (fl.map qOf).sum
            last_price := e.last_price
            value := e.value + (fl.map vOf).sum } := by
  induction ps generalizing S with
  | nil =>
      cases hl : lookupSumm S t
      · simp [hl]
      · simp [hl]
  | cons s rest ih =>
      show lookupSumm (rest.foldl summaryStepPure (summaryStepPure S s)) t = _
      rw [ih (summaryStepPure S s)]
      by_cases hts : tickerOf s = t
      · subst hts
        have hfl : (s :: rest).filter (fun x => tickerOf x == tickerOf s) =
            s :: rest.filter (fun x => tickerOf x == tickerOf s) := by
          simp [List.filter_cons]
        rw [hfl]
        unfold summaryStepPure
        cases hl : lookupSumm S (tickerOf s)
        · rw [lookupSumm_append_single_self S (tickerOf s) _ hl]
        · rw [lookupSumm_replaceSumm_self S (tickerOf s) _ (by rw [hl]; rfl)]
          simp [add_assoc]
      · have hfl : (s :: rest).filter (fun x => tickerOf x == t) =
            rest.filter (fun x => tickerOf x == t) := by
          simp [List.filter_cons, hts]
        rw [hfl, lookupSumm_summaryStepPure_other S s t hts]

/-! ## Claim theorems: summary of holdings -/

/-- **C7, counterexample.** Two accounts hold AAPL at observed last prices
1 (first account) and 2 (second, last-observed).  The summary keeps the
first observed price 1, not the last observed price 2. -/
theorem summary_holdings_last_price_counterexample :
    summary_holdings twoPriceLedger =
      .ok [(.str "AAPL", { quantity := 1 + 1, last_price := 1, value := 1 + 2 })] ∧
    ((allStocks twoPriceLedger).map lpOf).getLast? = some 2 ∧
    (1 : ℚ) ≠ 2 :=
  ⟨rfl, rfl, by norm_num⟩

/-- **C7, amended.** On a ledger whose positions are all validated,
`summary_holdings` succeeds; for each ticker the reported quantity and
value are the sums over every account holding it, and the reported last
price is the **first** observed price for that ticker in traversal order
(the Python loop only sets `last_price` when the ticker is first seen).
The operation is a pure read of the ledger. -/
theorem summary_holdings_aggregates (led : Ledger)
    (hvalid : ∀ p ∈ led, ∀ s ∈ p.2.stocks, validStock s = true) :
    ∃ S, summary_holdings led = .ok S ∧
      ∀ t : PyVal,
        lookupSumm S t =
          match (allStocks led).filter (fun s => tickerOf s == t) with
          | [] => none
          | s0 :: tl => some
              { quantity := qOf s0 + (tl.map qOf).sum
                last_price := lpOf s0
                value := vOf s0 + (tl.map vOf).sum } := by
  refine ⟨_, summary_holdings_valid_eq led hvalid, fun t => ?_⟩
  have h := lookupSumm_foldl (allStocks led) [] t
  cases hfl : (allStocks led).filter (fun s => tickerOf s == t) with
  | nil => rw [hfl] at h; simpa [lookupSumm] using h
  | cons s0 tl => rw [hfl] at h; simpa [lookupSumm] using h

/-- Concrete instance of the summary aggregation property, evaluated on
the two-account ledger at the ticker AAPL. -/
theorem summary_holdings_aggregates_witness :
    lookupSumm [(PyVal.str "AAPL",
        { quantity := 1 + 1, last_price := 1, value := 1 + 2 })] (.str "AAPL") =
      match (allStocks twoPriceLedger).filter
          (fun s => tickerOf s == PyVal.str "AAPL") with
      | [] => none
      | s0 :: tl => some
          { quantity := qOf s0 + (tl.map qOf).sum
            last_price := lpOf s0
            value := vOf s0 + (tl.map vOf).sum } := by
  obtain ⟨S, hS, hall⟩ := summary_holdings_aggregates twoPriceLedger (by decide)
  have h2 : summary_holdings twoPriceLedger =
      .ok [(PyVal.str "AAPL",
        { quantity := 1 + 1, last_price := 1, value := 1 + 2 })] := rfl
  rw [h2] at hS
  injection hS with h3
  rw [h3]
  exact hall (.str "AAPL")

/-! ## Account-enumeration lemmas -/

theorem takeWhile_append_all {p : Char → Bool} (l l' : List Char)
    (h : ∀ x ∈ l, p x = true) :
    (l ++ l').takeWhile p = l ++ l'.takeWhile p := by
  induction l with
  | nil => rfl
  | cons x xs ih =>
      simp only [List.cons_append, List.takeWhile_cons, h x (by simp), if_true]
      rw [ih (fun y hy => h y (by simp [hy]))]

theorem dropWhile_append_all {p : Char → Bool} (l l' : List Char)
    (h : ∀ x ∈ l, p x = true) :
    (l ++ l').dropWhile p = l'.dropWhile p := by
  induction l with
  | nil => rfl
  | cons x xs ih =>
      simp only [List.cons_append, List.dropWhile_cons, h x (by simp), if_true]
      exact ih (fun y hy => h y (by simp [hy]))

theorem tokenAfterParen_some (cs tok : List Char)
    (h : tokenAfterParen cs = some tok) :
    ∃ b, cs = tok ++ ')' :: b ∧ regexTokenSpec tok := by
  cases cs with
  | nil => simp [tokenAfterParen] at h
  | cons c rest =>
      simp only [tokenAfterParen] at h
      split at h
      case isTrue hc =>
        split at h
        case isTrue hcond =>
          obtain ⟨hlen, hhead⟩ := hcond
          cases hd : rest.dropWhile Char.isDigit with
          | nil => rw [hd] at hhead; cases hhead
          | cons x tl =>
              rw [hd] at hhead
              have hx : x = ')' := by
                simpa using hhead
              subst hx
              have hsplit : rest = rest.takeWhile Char.isDigit ++ ')' :: tl := by
                conv_lhs => rw [← List.takeWhile_append_dropWhile (p := Char.isDigit) (l := rest)]
                rw [hd]
              obtain rfl : c :: rest.takeWhile Char.isDigit = tok := by
                simpa using h
              refine ⟨tl, ?_, ?_⟩
              · rw [List.cons_append]
                rw [← hsplit]
              · exact ⟨c, rest.takeWhile Char.isDigit, rfl, hc,
                  fun d hd2 => List.mem_takeWhile_imp hd2, hlen⟩
        case isFalse => cases h
      case isFalse => cases h

theorem tokenAfterParen_complete (tok b : List Char) (h : regexTokenSpec tok) :
    (tokenAfterParen (tok ++ ')' :: b)).isSome = true := by
  obtain ⟨c, ds, rfl, hc, hds, hlen⟩ := h
  have ht : (ds ++ ')' :: b).takeWhile Char.isDigit = ds := by
    rw [takeWhile_append_all ds _ hds]
    simp [List.takeWhile_cons]
  have hd : (ds ++ ')' :: b).dropWhile Char.isDigit = ')' :: b := by
    rw [dropWhile_append_all ds _ hds]
    simp [List.dropWhile_cons]
  simp only [List.cons_append, tokenAfterParen, ht, hd]
  rw [if_pos hc, if_pos ⟨hlen, rfl⟩]
  rfl

theorem findTokenL_isSome_iff (cs : List Char) :
    (findTokenL cs).isSome = true ↔
      ∃ a tok b, cs = a ++ '(' :: (tok ++ ')' :: b) ∧ regexTokenSpec tok := by
  induction cs with
  | nil =>
      constructor
      · intro h; cases h
      · rintro ⟨a, tok, b, heq, -⟩
        cases a <;> simp at heq
  | cons c rest ih =>
      by_cases hc : c = '('
      · subst hc
        cases htk : tokenAfterParen rest with
        | some tok =>
            have hred : findTokenL ('(' :: rest) = some tok := by
              simp [findTokenL, htk]
            rw [hred]
            constructor
            · intro _
              obtain ⟨b, hb, hspec⟩ := tokenAfterParen_some rest tok htk
              exact ⟨[], tok, b, by rw [hb]; rfl, hspec⟩
            · intro _; rfl
        | none =>
            have hred : findTokenL ('(' :: rest) = findTokenL rest := by
              simp [findTokenL, htk]
            rw [hred, ih]
            constructor
            · rintro ⟨a, tok, b, heq, hspec⟩
              exact ⟨'(' :: a, tok, b, by rw [List.cons_append, heq], hspec⟩
            · rintro ⟨a, tok, b, heq, hspec⟩
              cases a with
              | nil =>
                  exfalso
                  simp only [List.nil_append, List.cons.injEq] at heq
                  have hcomp := tokenAfterParen_complete tok b hspec
                  rw [← heq.2] at hcomp
                  rw [htk] at hcomp
                  cases hcomp
              | cons a0 a' =>
                  simp only [List.cons_append, List.cons.injEq] at heq
                  exact ⟨a', tok, b, heq.2, hspec⟩
      · simp only [findTokenL, if_neg hc]
        rw [ih]
        constructor
        · rintro ⟨a, tok, b, heq, hspec⟩
          exact ⟨c :: a, tok, b, by rw [List.cons_append, heq], hspec⟩
        · rintro ⟨a, tok, b, heq, hspec⟩
          cases a with
          | nil =>
              simp only [List.nil_append, List.cons.injEq] at heq
              exact absurd heq.1 hc
          | cons a0 a' =>
              simp only [List.cons_append, List.cons.injEq] at heq
              exact ⟨a', tok, b, heq.2, hspec⟩

theorem nickFrom_append (acc l r : List Char) (h : ∀ x ∈ l, x ≠ '(') :
    nickFrom acc (l ++ '(' :: r) = some (acc.reverse ++ l) := by
  induction l generalizing acc with
  | nil => simp [nickFrom]
  | cons x l' ih =>
      have hx : x ≠ '(' := h x (by simp)
      simp only [List.cons_append, nickFrom, if_neg hx, List.append_eq]
      rw [ih (x :: acc) (fun y hy => h y (by simp [hy]))]
      simp

/-! ## Row-parsing lemmas -/

theorem parseFloatCore_nonneg (cs : List Char) (q : ℚ)
    (h : parseFloatCore cs = some q) : 0 ≤ q := by
  simp only [parseFloatCore] at h
  split at h
  · split at h
    · cases h
    · obtain rfl : ((digitsVal (cs.takeWhile Char.isDigit) : ℚ)) = q := by
        simpa using h
      positivity
  · split at h
    · split at h
      · cases h
      · rw [Option.some.injEq] at h
        subst h
        positivity
    · cases h
  · cases h

theorem pyFloatOfString_nonneg (s : String) (q : ℚ)
    (hm : '-' ∉ s.data) (h : pyFloatOfString s = some q) : 0 ≤ q := by
  unfold pyFloatOfString at h
  split at h
  · rename_i rest heq
    rw [heq] at hm
    simp at hm
  · rename_i rest heq
    exact parseFloatCore_nonneg rest q h
  · exact parseFloatCore_nonneg _ q h

theorem not_mem_removeChar (c : Char) (s : String) : c ∉ (removeChar c s).data := by
  intro hmem
  have := List.of_mem_filter hmem
  simp at this

theorem floatOfString_nonneg (s : String) (q : ℚ)
    (hm : '-' ∉ s.data) (h : floatOfString s = .ok q) : 0 ≤ q := by
  unfold floatOfString at h
  cases hp : pyFloatOfString s with
  | none => rw [hp] at h; cases h
  | some q2 =>
      rw [hp] at h
      injection h with h2
      subst h2
      exact pyFloatOfString_nonneg s _ hm hp

theorem floatOfString_removeChar_nonneg (s : String) (q : ℚ)
    (h : floatOfString (removeChar '-' s) = .ok q) : 0 ≤ q :=
  floatOfString_nonneg _ q (not_mem_removeChar '-' s) h

theorem lookupAcct_mem (led : Ledger) (k : String) (e : AccountEntry)
    (h : lookupAcct led k = some e) : (k, e) ∈ led := by
  induction led with
  | nil => cases h
  | cons p rest ih =>
      obtain ⟨k', e'⟩ := p
      by_cases hk : k' = k
      · subst hk
        simp [lookupAcct] at h
        subst h
        simp

      · simp only [lookupAcct, hk, if_false] at h
        simp [ih h]

theorem mem_replaceAcct (led : Ledger) (k : String) (v : AccountEntry)
    (p : String × AccountEntry) (h : p ∈ replaceAcct led k v) :
    p ∈ led ∨ p.2 = v := by
  induction led with
  | nil => cases h
  | cons q rest ih =>
      obtain ⟨k', e'⟩ := q
      by_cases hk : k' = k
      · rw [replaceAcct, if_pos hk] at h
        rcases List.mem_cons.mp h with h | h
        · right; rw [h]
        · left; exact List.mem_cons_of_mem _ h
      · rw [replaceAcct, if_neg hk] at h
        rcases List.mem_cons.mp h with h | h
        · left; rw [h]; exact List.mem_cons_self _ _
        · rcases ih h with h | h
          · left; exact List.mem_cons_of_mem _ h
          · right; exact h

theorem nonnegLedger_dictSet (led : Ledger) (k : String) (v : AccountEntry)
    (hled : nonnegLedger led) (hv : ∀ s ∈ v.stocks, nonnegStock s) :
    nonnegLedger (dictSet led k v) := by
  intro p hp s hs
  unfold dictSet at hp
  split at hp
  · rcases mem_replaceAcct led k v p hp with h | h
    · exact hled p h s hs
    · rw [h] at hs; exact hv s hs
  · rcases List.mem_append.mp hp with h | h
    · exact hled p h s hs
    · simp only [List.mem_singleton] at h
      rw [h] at hs
      exact hv s hs

theorem nonnegLedger_set_account_dict (led : Ledger) (acct : String) (b : Option ℚ)
    (nick : Option String) (stocks : List StockDict) (ow : Bool)
    (hled : nonnegLedger led) (hstocks : ∀ s ∈ stocks, nonnegStock s) :
    nonnegLedger (set_account_dict led acct b nick (some stocks) ow).2 := by
  unfold set_account_dict
  split
  · split
    · exact hled
    · exact nonnegLedger_dictSet led acct _ hled (by simpa using hstocks)
  · exact hled

theorem add_stock_eq_of_found (led : Ledger) (acct : String) (stock : StockDict)
    (entry : AccountEntry) (v : PyVal)
    (hl : lookupAcct led acct = some entry) (hv : stock.value = some v) :
    add_stock_to_account_dict led acct stock =
      match pyAddFloat entry.balance v with
      | .error e => .error e
      | .ok newBal => .ok (true, replaceAcct led acct
          { balance := newBal, nickname := entry.nickname,
            stocks := entry.stocks ++ [stock] }) := by
  unfold add_stock_to_account_dict
  rw [hl, hv]

theorem nonnegLedger_add_stock (led : Ledger) (acct : String) (stock : StockDict)
    (res : Bool × Ledger)
    (hled : nonnegLedger led) (hstock : nonnegStock stock)
    (h : add_stock_to_account_dict led acct stock = .ok res) :
    nonnegLedger res.2 := by
  cases hl : lookupAcct led acct with
  | none =>
      unfold add_stock_to_account_dict at h
      rw [hl] at h
      cases h
      exact hled
  | some entry =>
      cases hv : stock.value with
      | none =>
          unfold add_stock_to_account_dict at h
          rw [hl, hv] at h
          cases h
      | some v =>
          rw [add_stock_eq_of_found led acct stock entry v hl hv] at h
          cases hb : pyAddFloat entry.balance v with
          | error e => rw [hb] at h; cases h
          | ok newBal =>
              rw [hb] at h
              injection h with h2
              subst h2
              intro p hp s hs
              rcases mem_replaceAcct led acct _ p hp with hmem | hsnd
              · exact hled p hmem s hs
              · rw [hsnd] at hs
                rcases List.mem_append.mp hs with hs | hs
                · exact hled (acct, entry) (lookupAcct_mem led acct entry hl) s hs
                · simp only [List.mem_singleton] at hs
                  rw [hs]
                  exact hstock

/-- The inductive core of the C5 property: `processRows` preserves
non-negativity and well-typedness of every ledger position. -/
theorem processRows_preserves_nonneg (rows : List CsvRow) (led led2 : Ledger)
    (hled : nonnegLedger led) (h : processRows rows led = .ok led2) :
    nonnegLedger led2 := by
  induction rows generalizing led with
  | nil =>
      cases h
      exact hled
  | cons row rest ih =>
      obtain ⟨an, aname, sym, qty, lpc, cv⟩ := row
      cases an with
      | none =>
          simp only [processRows] at h
          exact ih led hled h
      | some acct =>
          simp only [processRows] at h
          by_cases hand : strContains acct "and" = true
          · rw [if_pos hand] at h
            cases h
            exact hled
          · rw [if_neg hand] at h
            cases hdata : acct.data with
            | nil =>
                simp only [hdata] at h
                cases h
            | cons a0 as =>
                simp only [hdata] at h
                by_cases hy : a0 = 'Y'
                · rw [if_pos hy] at h
                  exact ih led hled h
                · rw [if_neg hy] at h
                  by_cases hpend : strContains (pyStr sym) "Pending" = true
                  · rw [if_pos hpend] at h
                    exact ih led hled h
                  · rw [if_neg hpend] at h
                    by_cases hval0 :
                        (removeChar '-' (removeChar '$' (pyStr cv))).length = 0
                    · rw [if_pos hval0] at h
                      exact ih led hled h
                    · rw [if_neg hval0] at h
                      cases hqv : (if (removeChar '-' (pyStr qty)).length = 0
                          then .ok 1
                          else floatOfString (removeChar '-' (pyStr qty)) :
                            Except PyExc ℚ) with
                      | error e =>
                          simp only [hqv] at h
                          cases h
                      | ok qv =>
                        simp only [hqv] at h
                        cases hlpv : (if (removeChar '-'
                              (removeChar '$' (pyStr lpc))).length = 0 then
                            (if strToLower (removeChar '-'
                                (removeChar '$' (pyStr cv))) = "n/a"
                              then .ok 0
                              else floatOfString
                                (removeChar '-' (removeChar '$' (pyStr cv))))
                            else floatOfString
                              (removeChar '-' (removeChar '$' (pyStr lpc))) :
                            Except PyExc ℚ) with
                        | error e =>
                            simp only [hlpv] at h
                            cases h
                        | ok lpv =>
                          simp only [hlpv] at h
                          cases hvv : (if strToLower (removeChar '-'
                                (removeChar '$' (pyStr cv))) = "n/a"
                              then .ok 0
                              else floatOfString
                                (removeChar '-' (removeChar '$' (pyStr cv))) :
                              Except PyExc ℚ) with
                          | error e =>
                              simp only [hvv] at h
                              cases h
                          | ok vv =>
                            simp only [hvv] at h
                            have hq0 : 0 ≤ qv := by
                              by_cases hq : (removeChar '-' (pyStr qty)).length = 0
                              · rw [if_pos hq, Except.ok.injEq] at hqv
                                rw [← hqv]
                                norm_num
                              · rw [if_neg hq] at hqv
                                exact floatOfString_removeChar_nonneg _ qv hqv
                            have hv0 : 0 ≤ vv := by
                              by_cases hna : strToLower (removeChar '-'
                                  (removeChar '$' (pyStr cv))) = "n/a"
                              · rw [if_pos hna, Except.ok.injEq] at hvv
                                rw [← hvv]
                              · rw [if_neg hna] at hvv
                                exact floatOfString_removeChar_nonneg _ vv hvv
                            have hlp0 : 0 ≤ lpv := by
                              by_cases hlp : (removeChar '-'
                                  (removeChar '$' (pyStr lpc))).length = 0
                              · rw [if_pos hlp] at hlpv
                                by_cases hna : strToLower (removeChar '-'
                                    (removeChar '$' (pyStr cv))) = "n/a"
                                · rw [if_pos hna, Except.ok.injEq] at hlpv
                                  rw [← hlpv]
                                · rw [if_neg hna] at hlpv
                                  exact floatOfString_removeChar_nonneg _ lpv hlpv
                              · rw [if_neg hlp] at hlpv
                                exact floatOfString_removeChar_nonneg _ lpv hlpv
                            have hstock : nonnegStock
                                (create_stock_dict (pyStr sym) qv lpv vv) :=
                              ⟨pyStr sym, qv, lpv, vv, rfl, hq0, hlp0, hv0⟩
                            cases hset : set_account_dict led acct (some vv)
                                aname
                                (some [create_stock_dict (pyStr sym) qv lpv vv])
                                false with
                            | mk flag led' =>
                              have hled' : nonnegLedger led' := by
                                have := nonnegLedger_set_account_dict led acct (some vv)
                                  aname
                                  [create_stock_dict (pyStr sym) qv lpv vv]
                                  false hled (by
                                    intro s hs
                                    simp only [List.mem_singleton] at hs
                                    rw [hs]
                                    exact hstock)
                                rw [hset] at this
                                exact this
                              cases flag with
                              | true =>
                                  simp only [hset] at h
                                  exact ih led' hled' h
                              | false =>
                                  simp only [hset] at h
                                  cases hadd : add_stock_to_account_dict led' acct
                                      (create_stock_dict (pyStr sym) qv lpv vv) with
                                  | error e =>
                                      simp only [hadd] at h
                                      cases h
                                  | ok res =>
                                      obtain ⟨flag2, led3⟩ := res
                                      simp only [hadd] at h
                                      have hled3 : nonnegLedger led3 :=
                                        nonnegLedger_add_stock led' acct _
                                          (flag2, led3) hled' hstock hadd
                                      exact ih led3 hled3 h

/-! ## Claim theorems: the row loop -/

/-- **C5, counterexample.** A CSV row whose account-number cell is the
empty string is not excluded: `row["Account Number"][0]` raises
`IndexError`, crashing the parse. -/
theorem processRows_empty_account_counterexample :
    processRows [emptyAcctRow] [] = .error .indexError := rfl

/-- **C5, amended.** Rows whose account number is `None` are skipped
without an exception, and whenever the row loop completes, every accepted
row has produced a well-typed position with non-negative quantity, last
price and value (every `-` sign is stripped before conversion).  However
a row with an *empty-string* account number raises `IndexError`, a
non-numeric numeric cell (other than a value of `n/a`) raises
`ValueError`, and the ticker of an accepted position may be empty. -/
theorem processRows_row_safety :
    (∀ (rows : List CsvRow) (led2 : Ledger), processRows rows [] = .ok led2 →
      ∀ p ∈ led2, ∀ s ∈ p.2.stocks, nonnegStock s) ∧
    (∀ (rows : List CsvRow) (led : Ledger) (row : CsvRow),
      row.accountNumber = none →
      processRows (row :: rows) led = processRows rows led) := by
  constructor
  · intro rows led2 h
    exact processRows_preserves_nonneg rows [] led2
      (fun p hp => absurd hp (List.not_mem_nil p)) h
  · intro rows led row hrow
    simp only [processRows, hrow]

/-- Concrete instance: parsing a single well-formed row yields only
non-negative validated positions. -/
theorem processRows_row_safety_witness :
    nonnegStock (create_stock_dict "SPAXX" 1 ((120 : ℕ) : ℚ) ((240 : ℕ) : ℚ)) :=
  processRows_row_safety.1 [demoCsvRow]
    [("Z12345678",
      { balance := ((240 : ℕ) : ℚ), nickname := some "Individual",
        stocks := [create_stock_dict "SPAXX" 1 ((120 : ℕ) : ℚ) ((240 : ℕ) : ℚ)] })]
    (by rfl)
    ("Z12345678",
      { balance := ((240 : ℕ) : ℚ), nickname := some "Individual",
        stocks := [create_stock_dict "SPAXX" 1 ((120 : ℕ) : ℚ) ((240 : ℕ) : ℚ)] })
    (by simp)
    (create_stock_dict "SPAXX" 1 ((120 : ℕ) : ℚ) ((240 : ℕ) : ℚ)) (by simp)

/-! ## Claim theorems: account enumeration -/

/-- **C9, counterexample.** The option text `Brokerage (123456)` contains
a parenthesized purely numeric identifier of six digits — the claim's
pattern — yet the code's regex extracts nothing (it needs a digit followed
by at least six further digits, i.e. at least seven in total), and the
option adds nothing to the ledger. -/
theorem account_token_six_digit_counterexample :
    claimHasToken "Brokerage (123456)".data = true ∧
    findAccountNumber "Brokerage (123456)" = none ∧
    get_list_of_accounts ["Brokerage (123456)"] [] = [] :=
  ⟨rfl, rfl, rfl⟩

/-- **C9, amended.** An account-number token is extracted exactly when the
option text contains a parenthesized identifier consisting of a `Z` or a
digit followed by at least six digits (so purely numeric identifiers need
at least seven digits); the nickname is the text preceding the
parenthesis; an option on which either regex fails adds nothing to the
ledger. -/
theorem get_list_of_accounts_extraction :
    (∀ cs : List Char, (findTokenL cs).isSome = true ↔
        ∃ a tok b, cs = a ++ '(' :: (tok ++ ')' :: b) ∧ regexTokenSpec tok) ∧
    (∀ (nick r : List Char), nick ≠ [] → (∀ x ∈ nick, x ≠ '(') →
        findNicknameL (nick ++ '(' :: r) = some nick) ∧
    (∀ (led : Ledger) (opt : String),
        findAccountNumber opt = none ∨ findNickname opt = none →
        get_list_of_accounts [opt] led = led) := by
  refine ⟨findTokenL_isSome_iff, ?_, ?_⟩
  · intro nick r hne hnp
    cases nick with
    | nil => exact absurd rfl hne
    | cons n0 nick' =>
        simp only [List.cons_append, findNicknameL]
        rw [nickFrom_append [n0] nick' r (fun y hy => hnp y (by simp [hy]))]
        rfl
  · intro led opt h
    unfold get_list_of_accounts
    rcases h with h | h
    · simp [h]
    · cases hfa : findAccountNumber opt <;> simp [h, hfa]

/-- Concrete instance: an option text with no parenthesized token adds
nothing to the ledger. -/
theorem get_list_of_accounts_extraction_witness :
    get_list_of_accounts ["Cash"] [] = ([] : Ledger) :=
  get_list_of_accounts_extraction.2.2 [] "Cash" (Or.inl rfl)

/-! ## Claim theorems: order-type decision -/

/-- **C1.** The order-type decision is deterministic: a market order is
used exactly when the last price is at least one dollar and extended-hours
trading is not active, a limit order otherwise; the rounding precision is
3 decimal places normally and 2 under extended hours. -/
theorem order_plan_market_iff (last_price : ℚ) (ext : Bool) (action : String) :
    ((order_plan last_price ext action).orderType = .market ↔
      1 ≤ last_price ∧ ext = false) ∧
    (order_plan last_price ext action).precision = (if ext then 2 else 3) := by
  by_cases h : last_price < 1 ∨ ext = true
  · have hplan : (order_plan last_price ext action).orderType = .limit := by
      simp [order_plan, h]
    have hprec : (order_plan last_price ext action).precision = (if ext then 2 else 3) := by
      simp [order_plan, h]
    refine ⟨?_, hprec⟩
    rw [hplan]
    constructor
    · intro hm; cases hm
    · rintro ⟨h1, h2⟩
      rcases h with h | h
      · exact absurd h1 (not_le.mpr h)
      · rw [h2] at h; cases h
  · have hplan : (order_plan last_price ext action).orderType = .market := by
      simp [order_plan, h]
    have hprec : (order_plan last_price ext action).precision = (if ext then 2 else 3) := by
      simp [order_plan, h]
    push_neg at h
    refine ⟨?_, hprec⟩
    rw [hplan]
    constructor
    · intro _
      refine ⟨h.1, ?_⟩
      cases ext with
      | false => rfl
      | true => exact absurd rfl h.2
    · intro _
      rfl

/-- **C2.** When `transaction` places a limit order, the offset is 0.01
when the last price exceeds $0.10 and 0.0001 otherwise; a buy adds the
offset to the last price and a sell subtracts it, and the result is
rounded to the active precision (3, or 2 under extended hours). -/
theorem order_plan_limit_price (last_price : ℚ) (ext : Bool) (action : String)
    (hlim : last_price < 1 ∨ ext = true) :
    (order_plan last_price ext action).limitPrice =
      some (pyRound
        (if strToLower action = "buy"
          then last_price + (if last_price > 1/10 then 1/100 else 1/10000)
          else last_price - (if last_price > 1/10 then 1/100 else 1/10000))
        (if ext then 2 else 3)) := by
  simp only [order_plan, hlim, if_true]
  by_cases hb : strToLower action = "buy"
  · simp only [hb, if_true]
  · simp only [hb, if_false]

/-- Concrete instance of the limit-price policy: a 50-cent stock bought
outside extended hours. -/
theorem order_plan_limit_price_witness :
    (order_plan (1/2) false "buy").limitPrice =
      some (pyRound
        (if strToLower "buy" = "buy"
          then 1/2 + (if (1:ℚ)/2 > 1/10 then 1/100 else 1/10000)
          else 1/2 - (if (1:ℚ)/2 > 1/10 then 1/100 else 1/10000))
        (if false then 2 else 3)) :=
  order_plan_limit_price (1/2) false "buy" (Or.inl (by norm_num))

/-! ## Claim theorems: the transaction boundary -/

/-- **C6.** For every input and every behaviour of the browser page,
`transaction` never raises past its boundary: it returns either
`(True, None)` or a failure tuple `(False, message)`; and whenever the
body raises — any timeout or other exception at any step — the result is
a failure tuple whose message carries the error text (with the
driver-timeout prefix for an uncaught `PlaywrightTimeoutError`, and the
exception itself, modelled by its text, for any other exception). -/
theorem transaction_never_raises (b : PageBehavior) (stock : String) (quantity : ℚ)
    (action : String) (account : String) (dry : Bool) :
    (transaction b stock quantity action account dry = (true, none) ∨
      ∃ m, transaction b stock quantity action account dry = (false, some m)) ∧
    (∀ e, transactionBody b stock quantity action account dry = .error e →
      transaction b stock quantity action account dry =
        (false, some (match e with
          | .timeout m => "Driver timed out. Order not completed: " ++ m
          | _ => excText e))) := by
  constructor
  · unfold transaction
    cases htb : transactionBody b stock quantity action account dry with
    | ok o =>
        cases o with
        | success => exact Or.inl rfl
        | failure m => exact Or.inr ⟨m, rfl⟩
    | error e => cases e <;> exact Or.inr ⟨_, rfl⟩
  · intro e he
    unfold transaction
    rw [he]
    cases e <;> rfl

/-- Concrete instance: a page whose first wait raises a generic exception
yields the failure tuple carrying that exception's text. -/
theorem transaction_never_raises_witness :
    transaction failingBehavior "NVDA" 1 "buy" "Z12345678" true =
      (false, some (match (PyExc.other "boom") with
        | .timeout m => "Driver timed out. Order not completed: " ++ m
        | _ => excText (PyExc.other "boom"))) :=
  (transaction_never_raises failingBehavior "NVDA" 1 "buy" "Z12345678" true).2
    (.other "boom") rfl

end FidelityAPI
